import Mathlib

/-!
Shallow embedding of `src/nextpy_trivia.py` (a terminal trivia game).

User interaction is modelled by passing the list of raw input lines the user
would type; `input(...)` consumes the head of that list.  Python's
`str.strip().casefold()` is modelled over the ASCII range by dropping
surrounding whitespace and lower-casing.  Scoring arithmetic (Python floats
on small integers) is modelled exactly over `ℚ`.
-/

/-- The constant `ATTEMPTS = 5` (line 17 of the source). -/
def ATTEMPTS : Nat := 5

/-- Models Python `str.casefold()` over the ASCII range (lower-casing each
character). -/
def pyCasefold (s : String) : String := ⟨s.data.map Char.toLower⟩

/-- Models Python `str.strip()`: drop leading and trailing whitespace. -/
def pyStrip (s : String) : String :=
  ⟨((s.data.dropWhile Char.isWhitespace).reverse.dropWhile Char.isWhitespace).reverse⟩

/-- The normalisation applied to every raw input line:
`input(...).strip().casefold()` (line 107 of the source). -/
def normalizeInput (s : String) : String := pyCasefold (pyStrip s)

/-- Holds when `hay` starts with `needle` (character lists). -/
def prefAt : List Char → List Char → Bool
  | [], _ => true
  | _ :: _, [] => false
  | c :: cs, d :: ds => c == d && prefAt cs ds

/-- Models Python's substring test `needle in hay` over character lists. -/
def strIn (needle : List Char) : List Char → Bool
  | [] => needle.isEmpty
  | c :: rest => prefAt needle (c :: rest) || strIn needle rest

/-- Function `right_answer` (lines 78-89): the given answer is judged right when the
case-folded form of some accepted answer occurs in it as a substring. -/
def right_answer (given_answer : String) (answers : List String) : Bool :=
  answers.any (fun answer => strIn (pyCasefold answer).toList given_answer.toList)

/-- Result of `run_single_question` on a finite list of input lines:
either the function returns an outcome (with the input lines left over),
or it raises `SystemExit` (the user typed a quit keyword), or the supplied
input lines ran out before the function finished. -/
inductive RunResult where
  | returned (outcome : Nat) (rest : List String)
  | quit
  | outOfInput
deriving DecidableEq, Repr

/-- The loop of `run_single_question` (lines 99-139), with the question's
accepted-answer list `qa`, the remaining input lines, the current `attempt`
counter and the `clue_used` flag.  Each branch mirrors the source:
empty input re-prompts, "quit"/"exit" raises `SystemExit`,
"help"/"clue"/"hint" consumes an attempt and continues with the clue flag
set, a correct answer returns the incremented counter, a wrong answer
consumes an attempt and loops; when `attempt < ATTEMPTS` fails the function
returns 0. -/
def run_single_question_aux (qa : List String) : List String → Nat → Bool → RunResult
  | inputs, attempt, clue_used =>
    if attempt < ATTEMPTS then
      match inputs with
      | [] => .outOfInput
      | raw :: rest =>
        if normalizeInput raw = "" then
          run_single_question_aux qa rest attempt clue_used
        else if normalizeInput raw = "quit" ∨ normalizeInput raw = "exit" then
          .quit
        else if normalizeInput raw = "help" ∨ normalizeInput raw = "clue" ∨
            normalizeInput raw = "hint" then
          run_single_question_aux qa rest (attempt + 1) true
        else if right_answer (normalizeInput raw) qa then
          .returned (attempt + 1) rest
        else
          run_single_question_aux qa rest (attempt + 1) clue_used
    else
      .returned 0 inputs

/-- Function `run_single_question` (lines 92-139): starts with `attempt = 0` and
`clue_used = False`. -/
def run_single_question (qa : List String) (inputs : List String) : RunResult :=
  run_single_question_aux qa inputs 0 false

/-- Code line 148: `unanswered_questions = results.count(0)`. -/
def unanswered_questions (results : List Nat) : Nat := results.count 0

/-- Code line 149: `overall_attempts = sum(results)`. -/
def overall_attempts (results : List Nat) : Nat := results.sum

/-- Code line 150, over `ℚ`:
`avg_attempts_per_q = (overall_attempts + unanswered_questions * 10) / len(results)`. -/
def avg_attempts_per_q (results : List Nat) : ℚ :=
  ((overall_attempts results : ℚ) + (unanswered_questions results : ℚ) * 10) /
    (results.length : ℚ)

/-- Code line 151: `score = 10 - avg if unanswered_questions else 11 - avg`;
Python truthiness of the count is `≠ 0`. -/
def score (results : List Nat) : ℚ :=
  if unanswered_questions results ≠ 0 then 10 - avg_attempts_per_q results
  else 11 - avg_attempts_per_q results

/-- Code lines 152-154, `score_color`: red below 6, overwritten to green at 9 and
above, white otherwise. -/
def score_color (results : List Nat) : String :=
  if 9 ≤ score results then "green"
  else if score results < 6 then "red" else "white"

/-- Modelled from the spec: the Game Scorer algorithm of section 4.2, written
with the spec's own names (`unanswered`, `totalAttempts`, `averageAttempts`,
`rawScore` with the `unanswered > 0` test), to be compared with `score`. -/
def computeScore_spec (outcomes : List Nat) : ℚ :=
  let unanswered : Nat := outcomes.count 0
  let totalAttempts : Nat := outcomes.sum
  let averageAttempts : ℚ :=
    ((totalAttempts : ℚ) + (unanswered : ℚ) * 10) / (outcomes.length : ℚ)
  if unanswered > 0 then 10 - averageAttempts else 11 - averageAttempts

/-- Result of the whole game on a finite list of input lines. -/
inductive GameResult where
  | finished (finalScore : ℚ) (color : String)
  | quit
  | outOfInput
deriving DecidableEq, Repr

/-- The loop of `main` (lines 205-210) followed by `end_game`: run each
question in order, appending its outcome, and finally score the outcome
list; `SystemExit` from a question aborts the whole program before
`end_game`. -/
def run_questions : List (List String) → List String → List Nat → GameResult
  | [], _, acc => .finished (score acc) (score_color acc)
  | qa :: qs, inputs, acc =>
    match run_single_question qa inputs with
    | .returned v rest => run_questions qs rest (acc ++ [v])
    | .quit => .quit
    | .outOfInput => .outOfInput

/-! ### Step lemmas for the session loop -/

/-- When the attempt counter has reached the limit, the loop exits with 0. -/
theorem run_aux_exhausted (qa inputs : List String) (attempt : Nat) (cu : Bool)
    (h : ¬ attempt < ATTEMPTS) :
    run_single_question_aux qa inputs attempt cu = .returned 0 inputs := by
  rw [run_single_question_aux.eq_def]
  simp [h]

/-- Empty (after normalisation) input: re-prompt with unchanged state. -/
theorem run_aux_empty_step (qa : List String) (raw : String) (rest : List String)
    (attempt : Nat) (cu : Bool) (hlt : attempt < ATTEMPTS)
    (he : normalizeInput raw = "") :
    run_single_question_aux qa (raw :: rest) attempt cu =
      run_single_question_aux qa rest attempt cu := by
  rw [run_single_question_aux]
  simp [hlt, he]

/-- A quit keyword raises `SystemExit`. -/
theorem run_aux_quit_step (qa : List String) (raw : String) (rest : List String)
    (attempt : Nat) (cu : Bool) (hlt : attempt < ATTEMPTS)
    (hq : normalizeInput raw = "quit" ∨ normalizeInput raw = "exit") :
    run_single_question_aux qa (raw :: rest) attempt cu = .quit := by
  rw [run_single_question_aux]
  rcases hq with h | h <;> simp [hlt, h]

/-- A hint keyword consumes one attempt, sets the clue flag and continues. -/
theorem run_aux_hint_step (qa : List String) (raw : String) (rest : List String)
    (attempt : Nat) (cu : Bool) (hlt : attempt < ATTEMPTS)
    (hh : normalizeInput raw = "help" ∨ normalizeInput raw = "clue" ∨
      normalizeInput raw = "hint") :
    run_single_question_aux qa (raw :: rest) attempt cu =
      run_single_question_aux qa rest (attempt + 1) true := by
  rw [run_single_question_aux]
  rcases hh with h | h | h <;> simp [hlt, h]

/-- An ordinary answer consumes one attempt and is checked with
`right_answer`. -/
theorem run_aux_answer_step (qa : List String) (raw : String) (rest : List String)
    (attempt : Nat) (cu : Bool) (hlt : attempt < ATTEMPTS)
    (hne : normalizeInput raw ≠ "")
    (hnq : ¬(normalizeInput raw = "quit" ∨ normalizeInput raw = "exit"))
    (hnh : ¬(normalizeInput raw = "help" ∨ normalizeInput raw = "clue" ∨
      normalizeInput raw = "hint")) :
    run_single_question_aux qa (raw :: rest) attempt cu =
      if right_answer (normalizeInput raw) qa then .returned (attempt + 1) rest
      else run_single_question_aux qa rest (attempt + 1) cu := by
  rw [run_single_question_aux]
  simp [hlt, hne, hnq, hnh]

/-- Whatever value the loop returns is 0 or a counter in `[1, ATTEMPTS]`. -/
theorem run_aux_returned_range (qa : List String) :
    ∀ (inputs : List String) (attempt : Nat) (cu : Bool) (v : Nat)
      (rest2 : List String),
      run_single_question_aux qa inputs attempt cu = .returned v rest2 →
      v = 0 ∨ (1 ≤ v ∧ v ≤ ATTEMPTS) := by
  intro inputs
  induction inputs with
  | nil =>
    intro attempt cu v rest2 h
    rw [run_single_question_aux] at h
    split at h
    · exact absurd h (by simp)
    · left
      cases h
      rfl
  | cons raw rest ih =>
    intro attempt cu v rest2 h
    rw [run_single_question_aux] at h
    split at h
    case isTrue hlt =>
      split at h
      · exact ih attempt cu v rest2 h
      · split at h
        · exact absurd h (by simp)
        · split at h
          · exact ih (attempt + 1) true v rest2 h
          · split at h
            · cases h
              right
              omega
            · exact ih (attempt + 1) cu v rest2 h
    case isFalse hge =>
      left
      cases h
      rfl

/-! ### The substring test -/

/-- Holds exactly when `h` extends `n` on the right. -/
theorem prefAt_iff (n : List Char) : ∀ h, prefAt n h = true ↔ ∃ t, h = n ++ t := by
  induction n with
  | nil =>
    intro h
    simp [prefAt]
  | cons c cs ih =>
    intro h
    cases h with
    | nil => simp [prefAt]
    | cons d ds =>
      rw [prefAt]
      simp only [Bool.and_eq_true, beq_iff_eq, ih ds, List.cons_append,
        List.cons.injEq]
      constructor
      · rintro ⟨hcd, t, ht⟩
        exact ⟨t, hcd.symm, ht⟩
      · rintro ⟨t, hdc, ht⟩
        exact ⟨hdc.symm, t, ht⟩

/-- Holds exactly when `n` occurs inside `h`, which is Python's substring
test on strings. -/
theorem strIn_iff (n : List Char) : ∀ h, strIn n h = true ↔ ∃ s t, h = s ++ n ++ t := by
  intro h
  induction h with
  | nil =>
    rw [strIn]
    simp only [List.isEmpty_iff]
    constructor
    · intro he
      exact ⟨[], [], by simp [he]⟩
    · rintro ⟨s, t, hst⟩
      rcases List.append_eq_nil.mp hst.symm with ⟨h1, h2⟩
      rcases List.append_eq_nil.mp h1 with ⟨_, h3⟩
      exact h3
  | cons c rest ih =>
    rw [strIn]
    simp only [Bool.or_eq_true, prefAt_iff, ih]
    constructor
    · rintro (⟨t, ht⟩ | ⟨s, t, hst⟩)
      · exact ⟨[], t, by simp [ht]⟩
      · exact ⟨c :: s, t, by simp [hst]⟩
    · rintro ⟨s, t, hst⟩
      cases s with
      | nil =>
        left
        exact ⟨t, by simpa using hst⟩
      | cons x s2 =>
        right
        rcases List.cons.inj (by simpa using hst) with ⟨_, hrest⟩
        exact ⟨s2, t, by simp [hrest]⟩

/-- The empty needle occurs in every string. -/
theorem strIn_nil (h : List Char) : strIn [] h = true := by
  cases h <;> simp [strIn, prefAt]

/-! ### Arithmetic facts about the outcome list -/

/-- If every entry is at most 5, the sum plus five per zero entry is at most
five per entry. -/
theorem sum_count_bound : ∀ l : List Nat, (∀ x ∈ l, x ≤ 5) →
    l.sum + 5 * l.count 0 ≤ 5 * l.length := by
  intro l
  induction l with
  | nil => simp
  | cons a t ih =>
    intro hb
    have ha : a ≤ 5 := hb a (by simp)
    have ht := ih (fun x hx => hb x (by simp [hx]))
    by_cases h0 : a = 0 <;>
      simp [List.count_cons, h0] <;> omega

/-- With no zero entry, each entry is at least 1, so the sum dominates the
length. -/
theorem length_le_sum_of_no_zero : ∀ l : List Nat, l.count 0 = 0 →
    l.length ≤ l.sum := by
  intro l
  induction l with
  | nil => simp
  | cons a t ih =>
    intro hz
    simp [List.count_cons] at hz
    rcases hz with ⟨hz1, hz2⟩
    have := ih hz1
    simp
    omega

/-! ### The claims -/

/-- Claim C1, as stated, is false on the code: the hint consumes an attempt,
so after `ATTEMPTS - 1 = 4` wrong answers a hint request raises the counter
to `ATTEMPTS` and the loop exits, returning the outcome 0 after only four
failed non-hint attempts and with input left unread. -/
theorem claim_C1_counterexample :
    run_single_question ["x"] ["a", "a", "a", "a", "help"] = .returned 0 [] ∧
    ATTEMPTS = 5 := by
  constructor
  · decide
  · rfl

/-- Claim C1 (amended): a hint request never itself returns on the input that
carries it — the loop continues in state `(attempt + 1, clue_used := true)` —
but the hint does count toward the limit, so when the hint consumes the last
allowed attempt (`attempt = ATTEMPTS - 1`) the loop condition then fails and
the session returns 0 without reading further input. -/
theorem claim_C1 (qa : List String) (raw : String) (rest : List String)
    (attempt : Nat) (cu : Bool)
    (hh : normalizeInput raw = "help" ∨ normalizeInput raw = "clue" ∨
      normalizeInput raw = "hint") :
    (attempt < ATTEMPTS →
      run_single_question_aux qa (raw :: rest) attempt cu =
        run_single_question_aux qa rest (attempt + 1) true) ∧
    (attempt = ATTEMPTS - 1 →
      run_single_question_aux qa (raw :: rest) attempt cu = .returned 0 rest) := by
  constructor
  · intro hlt
    exact run_aux_hint_step qa raw rest attempt cu hlt hh
  · intro heq
    subst heq
    rw [run_aux_hint_step qa raw rest _ cu (by decide) hh]
    exact run_aux_exhausted qa rest _ true (by decide)

theorem claim_C1_witness :
    (4 < ATTEMPTS →
      run_single_question_aux ["x"] ["hint"] 4 false =
        run_single_question_aux ["x"] [] 5 true) ∧
    (4 = ATTEMPTS - 1 →
      run_single_question_aux ["x"] ["hint"] 4 false = .returned 0 []) :=
  claim_C1 ["x"] "hint" [] 4 false (by decide)

/-- Claim C2: the code's score agrees with the Game Scorer algorithm written
from the spec, and takes the spec's three example values. -/
theorem claim_C2 (results : List Nat) (h : results ≠ []) :
    score results = computeScore_spec results ∧
    score [3] = 8 ∧ score [0, 2] = 4 ∧ score [1, 1, 1] = 10 := by
  refine ⟨?_, ?_, ?_, ?_⟩
  · simp only [score, computeScore_spec, avg_attempts_per_q,
      unanswered_questions, overall_attempts]
    by_cases hz : results.count 0 = 0 <;> simp [hz, Nat.pos_iff_ne_zero]
  · norm_num [score, avg_attempts_per_q, unanswered_questions, overall_attempts]
  · norm_num [score, avg_attempts_per_q, unanswered_questions, overall_attempts]
  · norm_num [score, avg_attempts_per_q, unanswered_questions, overall_attempts]

theorem claim_C2_witness :
    (score [3] = computeScore_spec [3] ∧
      score [3] = 8 ∧ score [0, 2] = 4 ∧ score [1, 1, 1] = 10) :=
  claim_C2 [3] (by decide)

/-- Claim C3: `right_answer` succeeds on an input exactly when the case-folded
form of some accepted answer occurs in it as a substring (not only on exact
equality); in particular the accepted answer "paris" matches the input
"i think it's paris, yes". -/
theorem claim_C3 (g : String) (answers : List String) :
    (right_answer g answers = true ↔
      ∃ a ∈ answers, ∃ s t, g.toList = s ++ (pyCasefold a).toList ++ t) ∧
    right_answer "i think it\x27s paris, yes" ["paris"] = true := by
  refine ⟨?_, by decide⟩
  unfold right_answer
  rw [List.any_eq_true]
  constructor
  · rintro ⟨a, ha, hs⟩
    exact ⟨a, ha, (strIn_iff _ _).mp hs⟩
  · rintro ⟨a, ha, hs⟩
    exact ⟨a, ha, (strIn_iff _ _).mpr hs⟩

/-- Claim C4: whenever `run_single_question` returns an outcome, that outcome
is 0 or a count in `[1, ATTEMPTS]`, and `ATTEMPTS = 5`. -/
theorem claim_C4 (qa inputs : List String) (v : Nat) (rest : List String)
    (h : run_single_question qa inputs = .returned v rest) :
    (v = 0 ∨ (1 ≤ v ∧ v ≤ ATTEMPTS)) ∧ ATTEMPTS = 5 :=
  ⟨run_aux_returned_range qa inputs 0 false v rest h, rfl⟩

theorem claim_C4_witness :
    ((1 = 0 ∨ (1 ≤ 1 ∧ 1 ≤ ATTEMPTS)) ∧ ATTEMPTS = 5) :=
  claim_C4 ["x"] ["x"] 1 [] (by decide)

/-- Claim C5: a quit keyword at any live prompt raises `SystemExit` instead of
returning an outcome, and that abort propagates through the question loop of
`main`, so the game never reaches `end_game` and no score is produced. -/
theorem claim_C5 (qa : List String) (qs : List (List String)) (raw : String)
    (rest : List String) (attempt : Nat) (cu : Bool) (acc : List Nat)
    (hlt : attempt < ATTEMPTS)
    (hq : normalizeInput raw = "quit" ∨ normalizeInput raw = "exit") :
    run_single_question_aux qa (raw :: rest) attempt cu = .quit ∧
    ∀ inputs, run_single_question qa inputs = .quit →
      run_questions (qa :: qs) inputs acc = .quit := by
  constructor
  · exact run_aux_quit_step qa raw rest attempt cu hlt hq
  · intro inputs hqq
    simp [run_questions, hqq]

theorem claim_C5_witness :
    run_single_question_aux ["x"] [" Exit "] 0 false = .quit ∧
    ∀ inputs, run_single_question ["x"] inputs = .quit →
      run_questions [["x"]] inputs [] = .quit :=
  claim_C5 ["x"] [] " Exit " [] 0 false [] (by decide) (by decide)

/-- Claim C6: the qualitative band realized as the score colour is green
exactly when the score is at least 9, red exactly when it is below 6, and
white otherwise. -/
theorem claim_C6 (results : List Nat) (h : results ≠ []) :
    (score_color results = "green" ↔ 9 ≤ score results) ∧
    (score_color results = "red" ↔ score results < 6) ∧
    (score_color results = "white" ↔
      6 ≤ score results ∧ score results < 9) := by
  unfold score_color
  by_cases h9 : 9 ≤ score results
  · have h6 : ¬ score results < 6 := by linarith
    simp [h9, h6, not_lt.mpr h9]
  · by_cases h6 : score results < 6
    · simp [h9, h6, not_le.mpr h6]
    · simp [h9, h6, not_lt.mp h6, not_le.mp h9]

theorem claim_C6_witness :
    (score_color [3] = "green" ↔ 9 ≤ score [3]) ∧
    (score_color [3] = "red" ↔ score [3] < 6) ∧
    (score_color [3] = "white" ↔ 6 ≤ score [3] ∧ score [3] < 9) :=
  claim_C6 [3] (by decide)

/-- Claim C7: a hint keyword consumes exactly one attempt and continues the
loop with the clue flag set — with no assumption on `right_answer`, so this
holds even when the hint keyword would pass the correctness check — and on
the input that carries it the session never returns a success value. -/
theorem claim_C7 (qa : List String) (raw : String) (rest : List String)
    (attempt : Nat) (cu : Bool) (hlt : attempt < ATTEMPTS)
    (hh : normalizeInput raw = "help" ∨ normalizeInput raw = "clue" ∨
      normalizeInput raw = "hint") :
    run_single_question_aux qa (raw :: rest) attempt cu =
      run_single_question_aux qa rest (attempt + 1) true ∧
    ∀ rest2, run_single_question_aux qa [raw] attempt cu ≠
      .returned (attempt + 1) rest2 := by
  constructor
  · exact run_aux_hint_step qa raw rest attempt cu hlt hh
  · intro rest2
    rw [run_aux_hint_step qa raw [] attempt cu hlt hh]
    by_cases hlt2 : attempt + 1 < ATTEMPTS
    · rw [run_single_question_aux]
      simp [hlt2]
    · rw [run_aux_exhausted qa [] (attempt + 1) true hlt2]
      intro hcon
      rw [RunResult.returned.injEq] at hcon
      omega

theorem claim_C7_witness :
    run_single_question_aux ["hint"] ["hint"] 0 false =
      run_single_question_aux ["hint"] [] 1 true ∧
    ∀ rest2, run_single_question_aux ["hint"] ["hint"] 0 false ≠
      .returned 1 rest2 :=
  claim_C7 ["hint"] "hint" [] 0 false (by decide) (by decide)

/-- Claim C8: empty or whitespace-only input re-prompts with the attempt
counter and the clue flag unchanged — the session's result is exactly its
result on the remaining input from the same state, so the empty input never
aborts the session or makes it return. -/
theorem claim_C8 (qa : List String) (raw : String) (rest : List String)
    (attempt : Nat) (cu : Bool) (hlt : attempt < ATTEMPTS)
    (he : normalizeInput raw = "") :
    run_single_question_aux qa (raw :: rest) attempt cu =
      run_single_question_aux qa rest attempt cu :=
  run_aux_empty_step qa raw rest attempt cu hlt he

theorem claim_C8_witness :
    run_single_question_aux ["x"] ["   ", "y"] 2 true =
      run_single_question_aux ["x"] ["y"] 2 true :=
  claim_C8 ["x"] "   " ["y"] 2 true (by decide) (by decide)

/-- Claim C9: on a non-empty outcome list whose entries lie in
`{0} ∪ [1, 5]`, the score lies in `[0, 10]`; with no zero entry it lies in
`[6, 10]`. -/
theorem claim_C9 (results : List Nat) (h : results ≠ [])
    (hb : ∀ x ∈ results, x = 0 ∨ (1 ≤ x ∧ x ≤ 5)) :
    (0 ≤ score results ∧ score results ≤ 10) ∧
    (results.count 0 = 0 → 6 ≤ score results ∧ score results ≤ 10) := by
  have hb5 : ∀ x ∈ results, x ≤ 5 := by
    intro x hx
    rcases hb x hx with h0 | ⟨_, h5⟩
    · omega
    · exact h5
  have hn : 0 < results.length := List.length_pos.mpr h
  have hnQ : (0 : ℚ) < (results.length : ℚ) := by exact_mod_cast hn
  have f1 : results.sum + 5 * results.count 0 ≤ 5 * results.length :=
    sum_count_bound results hb5
  have f2 : results.count 0 ≤ results.length := List.count_le_length 0 results
  have havg0 : 0 ≤ avg_attempts_per_q results := by
    unfold avg_attempts_per_q unanswered_questions overall_attempts
    positivity
  have havg10 : avg_attempts_per_q results ≤ 10 := by
    unfold avg_attempts_per_q unanswered_questions overall_attempts
    rw [div_le_iff₀ hnQ]
    have hnat : results.sum + results.count 0 * 10 ≤ 10 * results.length := by
      omega
    have hcast : (results.sum : ℚ) + (results.count 0 : ℚ) * 10 ≤
        10 * (results.length : ℚ) := by exact_mod_cast hnat
    linarith
  have key0 : results.count 0 = 0 →
      6 ≤ score results ∧ score results ≤ 10 := by
    intro hz0
    have f3 := length_le_sum_of_no_zero results hz0
    have havg1 : 1 ≤ avg_attempts_per_q results := by
      unfold avg_attempts_per_q unanswered_questions overall_attempts
      rw [le_div_iff₀ hnQ]
      have hnat : results.length ≤ results.sum + results.count 0 * 10 := by
        omega
      have hcast : (results.length : ℚ) ≤
          (results.sum : ℚ) + (results.count 0 : ℚ) * 10 := by
        exact_mod_cast hnat
      linarith
    have havg5 : avg_attempts_per_q results ≤ 5 := by
      unfold avg_attempts_per_q unanswered_questions overall_attempts
      rw [div_le_iff₀ hnQ]
      have hnat : results.sum + results.count 0 * 10 ≤ 5 * results.length := by
        omega
      have hcast : (results.sum : ℚ) + (results.count 0 : ℚ) * 10 ≤
          5 * (results.length : ℚ) := by exact_mod_cast hnat
      linarith
    have hsc : score results = 11 - avg_attempts_per_q results := by
      simp [score, unanswered_questions, hz0]
    rw [hsc]
    constructor <;> linarith
  constructor
  · by_cases hz : results.count 0 = 0
    · rcases key0 hz with ⟨k1, k2⟩
      exact ⟨by linarith, k2⟩
    · have hsc : score results = 10 - avg_attempts_per_q results := by
        simp [score, unanswered_questions, hz]
      rw [hsc]
      constructor <;> linarith
  · exact key0

theorem claim_C9_witness :
    ((0 ≤ score [3] ∧ score [3] ≤ 10) ∧
      (List.count 0 [3] = 0 → 6 ≤ score [3] ∧ score [3] ≤ 10)) :=
  claim_C9 [3] (by decide) (by decide)

/-- Claim C10: if some accepted answer case-folds to the empty string, then
`right_answer` accepts every input, so any non-empty input that is not a quit
or hint keyword succeeds on the first attempt. -/
theorem claim_C10 (answers : List String) (a : String) (ha : a ∈ answers)
    (he : pyCasefold a = "") :
    (∀ g, right_answer g answers = true) ∧
    ∀ raw rest, normalizeInput raw ≠ "" →
      ¬(normalizeInput raw = "quit" ∨ normalizeInput raw = "exit") →
      ¬(normalizeInput raw = "help" ∨ normalizeInput raw = "clue" ∨
        normalizeInput raw = "hint") →
      run_single_question answers (raw :: rest) = .returned 1 rest := by
  have hall : ∀ g, right_answer g answers = true := by
    intro g
    unfold right_answer
    rw [List.any_eq_true]
    refine ⟨a, ha, ?_⟩
    rw [he]
    exact strIn_nil g.toList
  refine ⟨hall, ?_⟩
  intro raw rest hne hnq hnh
  unfold run_single_question
  rw [run_aux_answer_step answers raw rest 0 false (by decide) hne hnq hnh]
  rw [if_pos (hall (normalizeInput raw))]

theorem claim_C10_witness :
    (∀ g, right_answer g [""] = true) ∧
    ∀ raw rest, normalizeInput raw ≠ "" →
      ¬(normalizeInput raw = "quit" ∨ normalizeInput raw = "exit") →
      ¬(normalizeInput raw = "help" ∨ normalizeInput raw = "clue" ∨
        normalizeInput raw = "hint") →
      run_single_question [""] (raw :: rest) = .returned 1 rest :=
  claim_C10 [""] "" (by decide) (by decide)
